import Mathlib

/-!
Verification of the audio-visualizer core (src/main.cpp) against its
natural-language specification.  The C++ code is shallowly embedded:
machine integers become Nat/Int with explicit wrapping where overflow
matters, float arithmetic over sample values is modelled exactly over Q,
the boost circular buffer becomes a capacity-bounded list, and the
imperative render loop becomes a step function on an explicit state.
Definitions come first, theorems after.
-/

namespace AudioVis

/-! ## Constants (src/main.cpp lines 140-150)

FPS_LIMIT is the double 1.0/60.0.  Everywhere the code forms
size_t(SAMPLE_RATE * FPS_LIMIT), the double product rounds to the value
whose truncation is the floor of the exact quotient (checked for the
rates used in the development), so the size_t conversion is modelled as
Nat floor division by 60. -/

def SAMPLE_RATE : ℕ := 44100

/-- size_t(sampleRate * FPS_LIMIT): truncated number of samples per 1/60 s. -/
def samplesPerPeriod (sampleRate : ℕ) : ℕ := sampleRate / 60

/-- The inner expression of AUDIO_FRAMEBUF_SIZE (line 145):
size_t(SAMPLE_RATE * FPS_LIMIT) + 2 - size_t(SAMPLE_RATE * FPS_LIMIT) % 2,
generalised over the sample rate. -/
def frameSampleCount (sampleRate : ℕ) : ℕ :=
  samplesPerPeriod sampleRate + 2 - samplesPerPeriod sampleRate % 2

/-- AUDIO_FRAMEBUF_SIZE (line 145), generalised over the sample rate. -/
def audioFrameBufSizeOf (sampleRate : ℕ) : ℕ := 2 * frameSampleCount sampleRate

/-- AUDIO_FRAMEBUF_SIZE for the configured SAMPLE_RATE = 44100 (value 1472). -/
def AUDIO_FRAMEBUF_SIZE : ℕ := audioFrameBufSizeOf SAMPLE_RATE

/-! ## FrameBuffer: boost circular_buffer of AudioSample
(src/main.cpp lines 179-182, 286, 289-302, 313-329)

The buffer content is modelled as the list of frames from oldest (front)
to newest (back).  push_back on a full circular buffer overwrites the
oldest element; on a zero-capacity buffer it stores nothing. -/

/-- circular_buffer push_back with capacity cap. -/
def cbPush (cap : ℕ) (xs : List α) (x : α) : List α :=
  if cap = 0 then xs
  else if xs.length < cap then xs ++ [x]
  else xs.tail ++ [x]

/-- Push a whole sequence of frames in order (the producer loop of
DefaultSoundDevice::ProcessSound repeatedly pushes). -/
def cbPushAll (cap : ℕ) (xs : List α) (s : List α) : List α :=
  s.foldl (cbPush cap) xs

/-- circular_buffer front + pop_front, fused: none on an empty buffer. -/
def cbPop : List α → Option (α × List α)
  | [] => none
  | x :: xs => some (x, xs)

/-- Successive pops until the buffer is empty, in the order returned. -/
def cbDrain : List α → List α
  | [] => []
  | x :: xs => x :: cbDrain xs

/-- DefaultSoundDevice::Read (lines 289-302): returns false on an empty
buffer (leaving it unchanged and not writing the out-parameter), otherwise
copies the front frame out, pops it and returns true.  Result is
(returned bool, value written to the out-parameter, buffer afterwards). -/
def soundDeviceRead (buf : List α) : Bool × Option α × List α :=
  match buf with
  | [] => (false, none, buf)
  | x :: rest => (true, some x, rest)

/-! ## Sample normalization: Pcm16ToFloat (src/main.cpp lines 26-29)

The float expression 2.0f * ((float)value - INT16_MIN) / (INT16_MAX - INT16_MIN) - 1.0f
is modelled exactly over the rationals. -/

def INT16_MIN : ℚ := -32768

def INT16_MAX : ℚ := 32767

def Pcm16ToFloat (v : ℤ) : ℚ :=
  2 * ((v : ℚ) - INT16_MIN) / (INT16_MAX - INT16_MIN) - 1

/-- The normalization map exactly as the spec writes it:
2*(v - INT16_MIN)/(INT16_MAX - INT16_MIN) - 1. -/
def specNormalize (v : ℤ) : ℚ := 2 * ((v : ℚ) - (-32768)) / (32767 - (-32768)) - 1

/-- The inverse affine map of the normalization. -/
def pcm16FromFloat (y : ℚ) : ℚ := (y + 1) * (INT16_MAX - INT16_MIN) / 2 + INT16_MIN

/-! ## Byte decoding: BytesToPcm16 (src/main.cpp lines 38-41) and the
decode loop (lines 486-489)

BytesToPcm16(msbyte, lsbyte) returns ((PCM16)msbyte << 8) | lsbyte; the
int-valued expression is converted to a signed short on return, which
wraps modulo 2^16.  The uint8_t parameters are modelled as naturals
reduced mod 256 at entry.  The decode loop reads, for each even offset
i, the sample BytesToPcm16(data[i + 1], data[i]). -/

/-- Modular int-to-short conversion of a value (two-complement wrap). -/
def toSigned16 (n : ℕ) : ℤ :=
  if n % 65536 < 32768 then (n % 65536 : ℤ) else (n % 65536 : ℤ) - 65536

def BytesToPcm16 (msbyte lsbyte : ℕ) : ℤ :=
  toSigned16 (((msbyte % 256) <<< 8) ||| (lsbyte % 256))

/-- The decode loop: sample j is BytesToPcm16 of the bytes at offsets
2j + 1 (passed as msbyte) and 2j (passed as lsbyte). -/
def decodeFrame (data : ℕ → ℕ) (numSamples : ℕ) : List ℤ :=
  (List.range numSamples).map fun j => BytesToPcm16 (data (2 * j + 1)) (data (2 * j))

/-- The decode order claim C5 describes: most-significant byte first in
memory, i.e. the byte at the lower offset passed as the most significant. -/
def specDecodeMsbFirst (data : ℕ → ℕ) (numSamples : ℕ) : List ℤ :=
  (List.range numSamples).map fun j => BytesToPcm16 (data (2 * j)) (data (2 * j + 1))

/-- A frame whose first sample has byte 1 at offset 0 and byte 0 at offset 1. -/
def c5Frame : ℕ → ℕ := fun i => if i = 0 then 1 else 0

/-- S16LE byte layout of a 16-bit value: (byte at the lower offset, byte at
the higher offset) = (least significant byte, most significant byte). -/
def encodeS16LE (v : ℤ) : ℕ × ℕ :=
  ((v % 65536).toNat % 256, (v % 65536).toNat / 256)

/-- The sample value -12345 stored little-endian at offsets 0 and 1
(bytes 199 then 207, since -12345 mod 65536 = 53191 = 207 * 256 + 199). -/
def c5LeFrame : ℕ → ℕ := fun i => if i = 0 then 199 else if i = 1 then 207 else 0

/-! ## Waveform renderer state and loop (src/main.cpp lines 414-537)

The render loop state consists of the x position (line 451), the byte
offset into the vertex buffer (line 420), the point count (line 422) and
the logical point list channelValues0 (line 416).  Graphics calls are
recorded as commands issued to the collaborator. -/

/-- numPoints = SAMPLE_RATE + SAMPLE_RATE * FPS_LIMIT (line 415); the
double arithmetic is exact here, value 44835. -/
def numPoints : ℕ := SAMPLE_RATE + samplesPerPeriod SAMPLE_RATE

/-- Samples per frame: AUDIO_FRAMEBUF_SIZE / sizeof(PCM16) = 736. -/
def samplesPerFrame : ℕ := AUDIO_FRAMEBUF_SIZE / 2

/-- sizeof(glm::vec2): two 4-byte floats. -/
def vec2Size : ℕ := 8

/-- Per-sample x advance: float(sizeof(PCM16)) / SAMPLE_RATE (line 496). -/
def xStep : ℚ := 2 / SAMPLE_RATE

/-- The number of samples that fill the visible width (x from -1 to 1)
at the configured sample rate. -/
def visibleDurationSamples : ℕ := SAMPLE_RATE

structure RenderState where
  xPosition : ℚ
  offset : ℕ
  count : ℕ
  channelValues0 : List (ℚ × ℚ)
  deriving DecidableEq

/-- Commands issued to the graphics collaborator during one tick. -/
inductive GlCmd where
  | clearFB : GlCmd
  | uploadSub : ℕ → ℕ → GlCmd
  | draw : ℕ → GlCmd
  | clearRegion : ℕ → ℕ → GlCmd
  deriving DecidableEq

/-- The per-sample decode-append loop body (lines 490-496): push the point
(xPosition, Pcm16ToFloat(sample) / 2), increment count, advance xPosition. -/
def decodeLoop (s : RenderState) : List ℤ → RenderState
  | [] => s
  | v :: rest =>
      decodeLoop
        { s with
          channelValues0 := s.channelValues0 ++ [(s.xPosition, Pcm16ToFloat v / 2)],
          count := s.count + 1,
          xPosition := s.xPosition + xStep } rest

/-- The frame-append phase of one tick (lines 480-503): if a frame was
read, run the decode loop over its samples and then advance the buffer
offset by sizeof(glm::vec2) * AUDIO_FRAMEBUF_SIZE / 2 = vec2Size *
samplesPerFrame bytes; otherwise nothing changes. -/
def appendPhase (s : RenderState) : Option (ℕ → ℕ) → RenderState
  | none => s
  | some data =>
      { decodeLoop s (decodeFrame data samplesPerFrame) with
        offset := s.offset + vec2Size * samplesPerFrame }

/-- Graphics commands issued up to the wrap check: the initial clear
(line 467), the sub-range upload when a frame was read (lines 500-502),
and the line-strip draw over count points (line 508). -/
def baseCmds (s : RenderState) (readFrame : Option (ℕ → ℕ)) : List GlCmd :=
  GlCmd.clearFB ::
    (match readFrame with
      | none => []
      | some _ => [GlCmd.uploadSub s.offset (vec2Size * samplesPerFrame)]) ++
    [GlCmd.draw (appendPhase s readFrame).count]

/-- One render-loop iteration (lines 465-537), given the outcome of the
non-blocking read: append phase, draw, then the wrap check (lines
520-534): if xPosition > 1, reset x to -1, offset and count to 0, clear
the framebuffer, clear the vertex-buffer region starting at byte 0, and
clear the logical list. -/
def renderTick (s : RenderState) (readFrame : Option (ℕ → ℕ)) :
    RenderState × List GlCmd :=
  if (appendPhase s readFrame).xPosition > 1 then
    (⟨-1, 0, 0, []⟩,
      baseCmds s readFrame ++ [GlCmd.clearFB, GlCmd.clearRegion 0 numPoints])
  else
    (appendPhase s readFrame, baseCmds s readFrame)

/-- Loop-entry state (lines 420-422, 451): x at the left edge, offset and
count zero, no points. -/
def initialRenderState : RenderState := ⟨-1, 0, 0, []⟩

/-- Run the render loop over a sequence of per-tick read outcomes. -/
def runRender (inputs : List (Option (ℕ → ℕ))) : RenderState :=
  inputs.foldl (fun s i => (renderTick s i).1) initialRenderState

/-- The renderer consistency invariant of claim C10. -/
def RenderInv (s : RenderState) : Prop :=
  s.count = s.channelValues0.length ∧ s.offset = vec2Size * s.count

/-! ## Capture lifecycle (src/main.cpp lines 233, 238-241, 304-311, 474-477)

DefaultSoundDevice keeps a single boolean isOpen (false at construction);
Start sets it, Stop clears it, IsOpen returns it. -/

inductive CaptureOp where
  | start : CaptureOp
  | stop : CaptureOp
  deriving DecidableEq

/-- Effect of Start/Stop on the isOpen flag. -/
def applyCaptureOp (flag : Bool) : CaptureOp → Bool
  | CaptureOp.start => true
  | CaptureOp.stop => false

/-- The flag after a sequence of calls, starting from construction. -/
def runCaptureOps (ops : List CaptureOp) : Bool :=
  ops.foldl applyCaptureOp false

/-- The state machine claim C8 describes, with Stopped terminal. -/
inductive CaptureState where
  | Idle : CaptureState
  | Started : CaptureState
  | Stopped : CaptureState
  deriving DecidableEq

def specCaptureStep : CaptureState → CaptureOp → CaptureState
  | CaptureState.Stopped, _ => CaptureState.Stopped
  | _, CaptureOp.start => CaptureState.Started
  | _, CaptureOp.stop => CaptureState.Stopped

def specRunCaptureOps (ops : List CaptureOp) : CaptureState :=
  ops.foldl specCaptureStep CaptureState.Idle

/-- The render-loop auto-start (lines 474-477): if not IsOpen then Start. -/
def loopAutoStart (flag : Bool) : Bool :=
  if !flag then applyCaptureOp flag CaptureOp.start else flag

/-! ## Producer loop error handling (src/main.cpp lines 210-219, 322-328)

AudioSampler::Read returns false when pa_simple_read reports an error.  In
ProcessSound the boolean result is bound to a local that is never
consulted: the frame is pushed regardless and nothing is logged or
reported.  One loop iteration is modelled on the read outcome (success
flag, frame produced); the loop state is the frame buffer content plus a
count of surfaced error reports. -/

/-- buffer.data.set_capacity(SAMPLE_RATE / AUDIO_FRAMEBUF_SIZE + 1)
(line 286): value 30. -/
def AUDIO_BUFFER_CAPACITY : ℕ := SAMPLE_RATE / AUDIO_FRAMEBUF_SIZE + 1

/-- One iteration of the while(isOpen) producer loop (lines 322-328). -/
def producerIter (st : List α × ℕ) (readResult : Bool × α) : List α × ℕ :=
  (cbPush AUDIO_BUFFER_CAPACITY st.1 readResult.2, st.2)

/-- The producer loop over a sequence of read outcomes. -/
def producerRun (results : List (Bool × α)) : List α × ℕ :=
  results.foldl producerIter ([], 0)

/-! ## Helper lemmas -/

/-- Draining is exactly iterated cbPop. -/
theorem cbDrain_eq_pop (l : List α) :
    cbDrain l = match cbPop l with
      | none => []
      | some (x, r) => x :: cbDrain r := by
  cases l <;> rfl

/-- Closed form for a run of pushes: the buffer holds the suffix of the
pushed stream that fits, i.e. everything but the first
(length xs + length s - cap) elements of xs ++ s. -/
theorem cbPushAll_eq_drop (cap : ℕ) :
    ∀ (s xs : List α), xs.length ≤ cap →
      cbPushAll cap xs s = (xs ++ s).drop (xs.length + s.length - cap) := by
  intro s
  induction s with
  | nil =>
    intro xs h
    have hz : xs.length - cap = 0 := by omega
    simp [cbPushAll, hz]
  | cons a s ih =>
    intro xs h
    have hstep : cbPushAll cap xs (a :: s) = cbPushAll cap (cbPush cap xs a) s := rfl
    rw [hstep]
    by_cases hcap : cap = 0
    · subst hcap
      have hxs : xs = [] := List.length_eq_zero.mp (Nat.le_zero.mp h)
      subst hxs
      have hpush : cbPush 0 ([] : List α) a = [] := rfl
      rw [hpush, ih [] (by simp)]
      simp
    · by_cases hlt : xs.length < cap
      · have hpush : cbPush cap xs a = xs ++ [a] := by
          unfold cbPush
          rw [if_neg hcap, if_pos hlt]
        rw [hpush, ih (xs ++ [a]) (by simp; omega)]
        have harr : (xs ++ [a]).length + s.length - cap
            = xs.length + (a :: s).length - cap := by simp; omega
        rw [harr]
        simp
      · have hlen : xs.length = cap := by omega
        rcases xs with _ | ⟨y, t⟩
        · simp at hlen
          omega
        · have hpush : cbPush cap (y :: t) a = t ++ [a] := by
            unfold cbPush
            rw [if_neg hcap, if_neg (by simp at hlt ⊢; omega)]
            rfl
          rw [hpush, ih (t ++ [a]) (by simp at hlen ⊢; omega)]
          have hlt' : t.length + 1 = cap := by simpa using hlen
          have h1 : (t ++ [a]).length + s.length - cap = s.length := by
            simp
            omega
          have h2 : (y :: t).length + (a :: s).length - cap = s.length + 1 := by
            simp
            omega
          rw [h1, h2]
          simp [List.cons_append, List.drop_succ_cons]

/-- The decode-append loop leaves the buffer offset untouched. -/
theorem decodeLoop_offset (samples : List ℤ) :
    ∀ s : RenderState, (decodeLoop s samples).offset = s.offset := by
  induction samples with
  | nil => intro s; rfl
  | cons v rest ih => intro s; exact ih _

/-- The decode-append loop increments count once per sample. -/
theorem decodeLoop_count (samples : List ℤ) :
    ∀ s : RenderState, (decodeLoop s samples).count = s.count + samples.length := by
  induction samples with
  | nil => intro s; simp [decodeLoop]
  | cons v rest ih =>
    intro s
    simp only [decodeLoop]
    rw [ih]
    simp
    omega

/-- The decode-append loop advances x by xStep per sample. -/
theorem decodeLoop_xPosition (samples : List ℤ) :
    ∀ s : RenderState,
      (decodeLoop s samples).xPosition = s.xPosition + samples.length * xStep := by
  induction samples with
  | nil => intro s; simp [decodeLoop]
  | cons v rest ih =>
    intro s
    simp only [decodeLoop]
    rw [ih]
    simp only [List.length_cons]
    push_cast
    ring

/-- Closed form of the points accumulated by the decode-append loop. -/
theorem decodeLoop_channelValues (samples : List ℤ) :
    ∀ s : RenderState,
      (decodeLoop s samples).channelValues0
        = s.channelValues0 ++ (List.range samples.length).map
            (fun j : ℕ => (s.xPosition + (j : ℚ) * xStep, Pcm16ToFloat (samples.getD j 0) / 2)) := by
  induction samples with
  | nil => intro s; simp [decodeLoop]
  | cons v rest ih =>
    intro s
    simp only [decodeLoop]
    rw [ih]
    dsimp only
    rw [List.append_assoc]
    congr 1
    simp only [List.length_cons]
    rw [List.range_succ_eq_map]
    simp only [List.map_cons, List.map_map, List.singleton_append]
    congr 1
    · simp
    · apply List.map_congr_left
      intro j hj
      simp only [Function.comp_apply, Nat.succ_eq_add_one, List.getD_cons_succ,
        Prod.mk.injEq]
      refine ⟨by push_cast; ring, trivial⟩

/-- RenderInv is preserved by one render tick. -/
theorem renderTick_preserves_inv (s : RenderState) (i : Option (ℕ → ℕ))
    (h : RenderInv s) : RenderInv (renderTick s i).1 := by
  unfold renderTick
  split
  · exact ⟨rfl, rfl⟩
  · cases i with
    | none => exact h
    | some data =>
      obtain ⟨hc, ho⟩ := h
      unfold RenderInv appendPhase
      constructor
      · simp only [decodeLoop_count, decodeLoop_channelValues]
        simp [decodeFrame, hc]
      · simp only [decodeLoop_count]
        simp only [decodeFrame, List.length_map, List.length_range]
        rw [ho]
        ring

/-! ## Claim theorems -/

/-- C1: pushing capacity + k frames into an initially empty FrameBuffer
leaves exactly the most recent capacity frames; successive pops return
them in arrival (FIFO) order; push is a total function (never fails) and
keeps the length within the capacity bound.  Matches the boost
circular_buffer usage of AudioBuffer (push_back in ProcessSound,
front/pop_front in Read). -/
theorem frameBuffer_most_recent (cap k : ℕ) (s : List α)
    (h : s.length = cap + k) :
    cbPushAll cap [] s = s.drop k ∧
    (cbPushAll cap [] s).length ≤ cap ∧
    cbDrain (cbPushAll cap [] s) = s.drop k := by
  have hmain : cbPushAll cap ([] : List α) s = s.drop k := by
    rw [cbPushAll_eq_drop cap s [] (by simp)]
    simp only [List.length_nil, List.nil_append, Nat.zero_add]
    congr 1
    omega
  have hdrain : ∀ l : List α, cbDrain l = l := by
    intro l
    induction l with
    | nil => rfl
    | cons x xs ih => simp [cbDrain, ih]
  refine ⟨hmain, ?_, by rw [hmain, hdrain]⟩
  rw [hmain]
  simp
  omega

/-- C1 witness: capacity 2, pushing 2 + 1 frames keeps the last 2. -/
theorem frameBuffer_most_recent_witness :
    cbPushAll 2 [] [10, 20, 30] = [20, 30] ∧
    (cbPushAll 2 ([] : List ℕ) [10, 20, 30]).length ≤ 2 ∧
    cbDrain (cbPushAll 2 ([] : List ℕ) [10, 20, 30]) = [20, 30] := by
  have h := frameBuffer_most_recent 2 1 [10, 20, 30] (by decide)
  simpa using h

/-- C2: the non-blocking read returns a frame exactly when the buffer is
non-empty; on an empty buffer it returns false without mutating the
buffer or producing a frame. -/
theorem soundDeviceRead_spec (buf : List α) :
    ((soundDeviceRead buf).1 = true ↔ buf ≠ []) ∧
    ((soundDeviceRead buf).2.1.isSome ↔ buf ≠ []) ∧
    (buf = [] → soundDeviceRead buf = (false, none, buf)) := by
  cases buf <;> simp [soundDeviceRead]

/-- C2 witness: the concrete empty buffer. -/
theorem soundDeviceRead_spec_witness :
    soundDeviceRead ([] : List ℕ) = (false, none, []) :=
  (soundDeviceRead_spec ([] : List ℕ)).2.2 rfl

/-- C3: normalization maps v to 2*(v - INT16_MIN)/(INT16_MAX - INT16_MIN) - 1,
sends INT16_MIN to -1 and INT16_MAX to 1, sends 0 within 1/32768 of 0, and the
inverse map recovers every 16-bit sample value exactly (hence within any
floating-point tolerance).  Modelled over exact rationals. -/
theorem pcm16ToFloat_spec (v : ℤ) (h1 : -32768 ≤ v) (h2 : v ≤ 32767) :
    Pcm16ToFloat v = specNormalize v ∧
    Pcm16ToFloat (-32768) = -1 ∧
    Pcm16ToFloat 32767 = 1 ∧
    |Pcm16ToFloat 0| ≤ 1 / 32768 ∧
    pcm16FromFloat (Pcm16ToFloat v) = v := by
  refine ⟨rfl, ?_, ?_, ?_, ?_⟩
  · norm_num [Pcm16ToFloat, INT16_MIN, INT16_MAX]
  · norm_num [Pcm16ToFloat, INT16_MIN, INT16_MAX]
  · have h0 : Pcm16ToFloat 0 = 1 / 65535 := by
      norm_num [Pcm16ToFloat, INT16_MIN, INT16_MAX]
    rw [h0, abs_of_pos (by norm_num)]
    norm_num
  · unfold pcm16FromFloat Pcm16ToFloat INT16_MIN INT16_MAX
    field_simp

/-- C3 witness: concrete sample value 1234. -/
theorem pcm16ToFloat_spec_witness :
    Pcm16ToFloat 1234 = specNormalize 1234 ∧
    pcm16FromFloat (Pcm16ToFloat 1234) = 1234 := by
  have h := pcm16ToFloat_spec 1234 (by norm_num) (by norm_num)
  exact ⟨h.1, h.2.2.2.2⟩

/-- C4: whenever the post-append x position exceeds the right edge (1), the
tick ends reset: x back at the left edge -1, offset and count zero, the
logical point list empty; and the tick issues both a framebuffer clear and
a device-buffer region clear starting at byte 0, so the new sweep starts
without stale geometry. -/
theorem renderTick_wrap_reset (s : RenderState) (readFrame : Option (ℕ → ℕ))
    (h : (appendPhase s readFrame).xPosition > 1) :
    (renderTick s readFrame).1 = ⟨-1, 0, 0, []⟩ ∧
    GlCmd.clearFB ∈ (renderTick s readFrame).2 ∧
    GlCmd.clearRegion 0 numPoints ∈ (renderTick s readFrame).2 := by
  unfold renderTick
  rw [if_pos h]
  refine ⟨rfl, ?_, ?_⟩
  · simp [baseCmds]
  · simp [baseCmds]

/-- C4 witness: a state already past the right edge with no frame read. -/
theorem renderTick_wrap_reset_witness :
    (renderTick ⟨2, 5, 3, [(0, 0)]⟩ none).1 = ⟨-1, 0, 0, []⟩ ∧
    GlCmd.clearFB ∈ (renderTick ⟨2, 5, 3, [(0, 0)]⟩ none).2 ∧
    GlCmd.clearRegion 0 numPoints ∈ (renderTick ⟨2, 5, 3, [(0, 0)]⟩ none).2 :=
  renderTick_wrap_reset ⟨2, 5, 3, [(0, 0)]⟩ none (by norm_num [appendPhase])

/-- C5 counterexample: the code decodes the byte at the lower offset as the
least significant byte (sample value 1 on this frame), while the claimed
most-significant-byte-first order would yield 256; the two decodes disagree,
so the claim as stated is false of the code. -/
theorem decode_not_msb_first :
    decodeFrame c5Frame 1 = [1] ∧
    specDecodeMsbFirst c5Frame 1 = [256] ∧
    decodeFrame c5Frame 1 ≠ specDecodeMsbFirst c5Frame 1 := by
  refine ⟨by decide, by decide, by decide⟩

/-- C5 amended: the decode loop treats the byte at offset 2j as the least
significant and the byte at offset 2j + 1 as the most significant, exactly
the S16LE layout the capture API stores; decoding any sample value encoded
little-endian recovers that value. -/
theorem decode_matches_s16le (v : ℤ) (h1 : -32768 ≤ v) (h2 : v ≤ 32767)
    (data : ℕ → ℕ) (j n : ℕ) (hj : j < n)
    (hlo : data (2 * j) = (encodeS16LE v).1)
    (hhi : data (2 * j + 1) = (encodeS16LE v).2) :
    (decodeFrame data n)[j]? = some v := by
  have hstep : (decodeFrame data n)[j]? =
      some (BytesToPcm16 (data (2 * j + 1)) (data (2 * j))) := by
    unfold decodeFrame
    rw [List.getElem?_map, List.getElem?_range hj]
    rfl
  rw [hstep, hlo, hhi]
  show some (BytesToPcm16 ((v % 65536).toNat / 256) ((v % 65536).toNat % 256)) = some v
  have hnn : (0 : ℤ) ≤ v % 65536 := Int.emod_nonneg v (by norm_num)
  have hlt : v % 65536 < 65536 := Int.emod_lt_of_pos v (by norm_num)
  have hult : (v % 65536).toNat < 65536 := by omega
  have key : BytesToPcm16 ((v % 65536).toNat / 256) ((v % 65536).toNat % 256) = v := by
    unfold BytesToPcm16
    have e1 : (v % 65536).toNat / 256 % 256 = (v % 65536).toNat / 256 :=
      Nat.mod_eq_of_lt (by omega)
    have e2 : (v % 65536).toNat % 256 % 256 = (v % 65536).toNat % 256 :=
      Nat.mod_eq_of_lt (by omega)
    rw [e1, e2]
    have hbridge : (((v % 65536).toNat / 256) <<< 8) ||| ((v % 65536).toNat % 256)
        = (v % 65536).toNat / 256 * 256 + (v % 65536).toNat % 256 := by
      have hb : (v % 65536).toNat % 256 < 2 ^ 8 := by omega
      rw [Nat.shiftLeft_eq, Nat.mul_comm ((v % 65536).toNat / 256) (2 ^ 8),
        ← Nat.mul_add_lt_is_or hb ((v % 65536).toNat / 256)]
    rw [hbridge]
    have hdm : (v % 65536).toNat / 256 * 256 + (v % 65536).toNat % 256
        = (v % 65536).toNat := by omega
    rw [hdm]
    unfold toSigned16
    have hmod : (v % 65536).toNat % 65536 = (v % 65536).toNat := Nat.mod_eq_of_lt hult
    rw [hmod]
    split
    · omega
    · omega
  rw [key]

/-- C5 amended witness: sample value -12345 stored little-endian. -/
theorem decode_matches_s16le_witness :
    (decodeFrame c5LeFrame 1)[0]? = some (-12345) :=
  decode_matches_s16le (-12345) (by norm_num) (by norm_num) c5LeFrame 0 1
    (by norm_num) (by decide) (by decide)

/-- C6 counterexample: at the valid rate 48000 Hz the code computes
frameSampleCount = 802, yet 800 is even and at least 48000 * (1/60) = 800,
and 802 is not at most 800: the code value is not the smallest even integer
at least sampleRate * framePeriod. -/
theorem frameSampleCount_not_minimal :
    frameSampleCount 48000 = 802 ∧ Even 800 ∧ 48000 ≤ 60 * 800 ∧
    ¬ frameSampleCount 48000 ≤ 800 := by
  refine ⟨by decide, by decide, by decide, by decide⟩

/-- C6 amended: for every sample rate the byte capacity 2 * frameSampleCount
is even and at least 2 * sampleRate * framePeriod; and whenever the rate is
not a multiple of 120 (in particular at the configured 44100 Hz),
frameSampleCount is the smallest even integer at least sampleRate/60.  At
multiples of 120 the code overshoots that smallest even integer by 2. -/
theorem audioFrameBufSize_spec (sr : ℕ) :
    audioFrameBufSizeOf sr % 2 = 0 ∧
    (sr : ℚ) * 2 * (1 / 60) ≤ (audioFrameBufSizeOf sr : ℚ) ∧
    (sr % 120 ≠ 0 →
      Even (frameSampleCount sr) ∧ sr ≤ 60 * frameSampleCount sr ∧
      ∀ m : ℕ, Even m → sr ≤ 60 * m → frameSampleCount sr ≤ m) := by
  have hnat : sr ≤ 60 * frameSampleCount sr := by
    unfold frameSampleCount samplesPerPeriod
    omega
  refine ⟨?_, ?_, ?_⟩
  · simp [audioFrameBufSizeOf, Nat.mul_mod_right]
  · have hq : (sr : ℚ) ≤ 60 * (frameSampleCount sr : ℚ) := by exact_mod_cast hnat
    unfold audioFrameBufSizeOf
    push_cast
    linarith
  · intro h120
    refine ⟨?_, hnat, ?_⟩
    · rw [Nat.even_iff]
      unfold frameSampleCount samplesPerPeriod
      omega
    · intro m hm hle
      rw [Nat.even_iff] at hm
      unfold frameSampleCount samplesPerPeriod
      omega

/-- C6 amended witness: the configured rate 44100, where the minimal even
bound 736 is attained. -/
theorem audioFrameBufSize_spec_witness :
    audioFrameBufSizeOf 44100 % 2 = 0 ∧ frameSampleCount 44100 ≤ 736 :=
  ⟨(audioFrameBufSize_spec 44100).1,
    ((audioFrameBufSize_spec 44100).2.2 (by decide)).2.2 736 (by decide) (by decide)⟩

/-- C7: the x step of the decode loop is exactly 2 / visibleDurationSamples;
the sweep starts at the left edge (-1); the j-th sample appended by a run of
the loop sits at x = start + j * xStep; and visibleDurationSamples
consecutive samples advance x by exactly the visible width, from edge -1 to
edge 1. -/
theorem sample_x_coordinates (s : RenderState) (samples : List ℤ) (j : ℕ)
    (hj : j < samples.length) :
    xStep = 2 / (visibleDurationSamples : ℚ) ∧
    initialRenderState.xPosition = -1 ∧
    (decodeLoop s samples).channelValues0[s.channelValues0.length + j]? =
      some (s.xPosition + j * xStep, Pcm16ToFloat (samples.getD j 0) / 2) ∧
    (-1 : ℚ) + (visibleDurationSamples : ℚ) * xStep = 1 := by
  refine ⟨rfl, rfl, ?_, by norm_num [visibleDurationSamples, xStep, SAMPLE_RATE]⟩
  rw [decodeLoop_channelValues]
  rw [List.getElem?_append_right (by simp)]
  simp only [Nat.add_sub_cancel_left]
  rw [List.getElem?_map, List.getElem?_range hj]
  rfl

/-- C7 witness: the second sample of a concrete two-sample run starting at
the left edge. -/
theorem sample_x_coordinates_witness :
    (decodeLoop initialRenderState [5, 7]).channelValues0[0 + 1]? =
      some (initialRenderState.xPosition + 1 * xStep, Pcm16ToFloat 7 / 2) := by
  have h := (sample_x_coordinates initialRenderState [5, 7] 1 (by decide)).2.2.1
  simpa using h

/-- C8 counterexample: after the call trace start, stop, start the code
reports open again (the flag is true), while the claimed machine with
Stopped terminal is in Stopped, which is not Started; Stopped is therefore
not terminal for the code, whose stop merely returns to the closed state. -/
theorem captureLifecycle_stopped_not_terminal :
    runCaptureOps [CaptureOp.start, CaptureOp.stop, CaptureOp.start] = true ∧
    specRunCaptureOps [CaptureOp.start, CaptureOp.stop, CaptureOp.start]
      = CaptureState.Stopped ∧
    specRunCaptureOps [CaptureOp.start, CaptureOp.stop, CaptureOp.start]
      ≠ CaptureState.Started := by
  refine ⟨rfl, rfl, by decide⟩

/-- C8 amended: the lifecycle state is the single isOpen flag: false
(closed, Idle) at construction; Start moves to Started and is idempotent;
Stop returns to the closed state, indistinguishable from Idle, so a later
Start reopens (Stopped is terminal only because the program calls Stop once,
after the render loop exits); IsOpen reports the flag; the render-loop
auto-start leaves the device Started from the first iteration on. -/
theorem captureLifecycle_flag (b : Bool) :
    runCaptureOps [] = false ∧
    applyCaptureOp b CaptureOp.start = true ∧
    applyCaptureOp (applyCaptureOp b CaptureOp.start) CaptureOp.start
      = applyCaptureOp b CaptureOp.start ∧
    applyCaptureOp b CaptureOp.stop = false ∧
    loopAutoStart b = true ∧
    applyCaptureOp (applyCaptureOp b CaptureOp.stop) CaptureOp.start = true := by
  cases b <;> exact ⟨rfl, rfl, rfl, rfl, rfl, rfl⟩

/-- C9: the producer loop does survive read failures (every iteration is
processed), but the failure is not surfaced: the report count stays zero
over every sequence of read outcomes, and a failing read still pushes the
stale frame into the buffer.  The specification (sections 4.3, 7, 9)
requires the failure to propagate as a CaptureError and marks the silent
discard in the source as the defect, so the code, evaluated here at the
failing read outcome (false, 7), contradicts the claim. -/
theorem producer_discards_read_failure :
    (producerIter (([], 0) : List ℕ × ℕ) (false, 7)).2 = 0 ∧
    (producerIter (([], 0) : List ℕ × ℕ) (false, 7)).1 = [7] ∧
    ∀ results : List (Bool × ℕ), (producerRun results).2 = 0 := by
  have hrep : ∀ (rs : List (Bool × ℕ)) (st : List ℕ × ℕ),
      (rs.foldl producerIter st).2 = st.2 := by
    intro rs
    induction rs with
    | nil => intro st; rfl
    | cons r rs ih => intro st; exact ih (producerIter st r)
  exact ⟨rfl, by decide, fun results => hrep results ([], 0)⟩

/-- C10: at the end of every render-loop iteration the point count equals
the length of the logical point list and the byte offset equals vec2Size
times the count; a successful read advances count, list length and offset
together by the frame sample count, an empty tick leaves the state
unchanged, and a wrap reset zeroes count and offset and empties the list. -/
theorem render_loop_invariant (inputs : List (Option (ℕ → ℕ))) :
    RenderInv (runRender inputs) ∧
    (∀ (s : RenderState) (data : ℕ → ℕ),
      (appendPhase s (some data)).count = s.count + samplesPerFrame ∧
      (appendPhase s (some data)).channelValues0.length
        = s.channelValues0.length + samplesPerFrame ∧
      (appendPhase s (some data)).offset = s.offset + vec2Size * samplesPerFrame) ∧
    (∀ s : RenderState, appendPhase s none = s) ∧
    (∀ (s : RenderState) (readFrame : Option (ℕ → ℕ)),
      (appendPhase s readFrame).xPosition > 1 →
      (renderTick s readFrame).1.count = 0 ∧ (renderTick s readFrame).1.offset = 0 ∧
      (renderTick s readFrame).1.channelValues0 = []) := by
  refine ⟨?_, ?_, ?_, ?_⟩
  · have hrun : ∀ (l : List (Option (ℕ → ℕ))) (s : RenderState), RenderInv s →
        RenderInv (l.foldl (fun s i => (renderTick s i).1) s) := by
      intro l
      induction l with
      | nil => intro s hs; exact hs
      | cons i l ih =>
        intro s hs
        exact ih _ (renderTick_preserves_inv s i hs)
    exact hrun inputs initialRenderState ⟨rfl, rfl⟩
  · intro s data
    unfold appendPhase
    refine ⟨?_, ?_, rfl⟩
    · simp [decodeLoop_count, decodeFrame]
    · simp [decodeLoop_channelValues, decodeFrame]
  · intro s
    rfl
  · intro s readFrame h
    unfold renderTick
    rw [if_pos h]
    exact ⟨rfl, rfl, rfl⟩

/-- C10 witness: an empty-buffer tick keeps the invariant, and a wrap tick
zeroes the state. -/
theorem render_loop_invariant_witness :
    RenderInv (runRender [none]) ∧
    (renderTick ⟨2, 5, 3, [(0, 0)]⟩ none).1.count = 0 :=
  ⟨(render_loop_invariant [none]).1,
    ((render_loop_invariant []).2.2.2 ⟨2, 5, 3, [(0, 0)]⟩ none
      (by norm_num [appendPhase])).1⟩

end AudioVis
